import Mathlib

/-!
Verification of `src/tools/fix_notebook.py`.

The tool parses a notebook file as JSON, removes `metadata.widgets` entries
that are not a mapping containing the key `state` (at notebook level and in
each cell), and, when a removal occurred, copies the original file to a
backup and writes the corrected document back.

The embedding models parsed JSON values as the inductive `Json` (JSON objects
are ordered association lists, matching Python dicts built by `json.load`,
which preserve insertion order and have pairwise-distinct keys).  Python's
`in` operator, subscripting with a string key, `del`, and iteration are
modelled by functions returning `Except PyErr _`, where `PyErr` stands for
the exceptions those operations can raise on unexpected operand types.
File-system effects (read, backup copy, write, restore) are modelled by an
explicit environment `Env` saying which of them succeed, and an explicit
result record `RunResult`; serialization (`json.dump`) is kept abstract as a
function parameter `ser` since no property here depends on its bytes.
`json.load` never produces aliased sub-objects, so in-place mutation of a
sub-dictionary is modelled by rebuilding the surrounding tree.
-/

namespace FixNotebook

/-- Parsed JSON values, the possible results of `json.load`. -/
inductive Json where
  | null
  | bool (b : Bool)
  | num (n : Int)
  | str (s : String)
  | arr (xs : List Json)
  | obj (kvs : List (String × Json))

/-- Exceptions the modelled Python operations can raise. -/
inductive PyErr where
  | typeError
  | keyError
deriving DecidableEq

/-- The diagnostic messages the script prints, abstracted as tokens. -/
inductive Msg where
  | removedNotebookLevel
  | removedCell (i : Nat)
  | createdBackup
  | fixedOk
  | errBackup
  | errWrite
  | restored
  | errRestore
  | noMalformed
  | errNotFound
  | errParse
  | errRead
deriving DecidableEq

/-- First-match lookup in an ordered association list (Python `d[k]` on a
dict, when the key is present). -/
def lookupKV : List (String × Json) → String → Option Json
  | [], _ => none
  | p :: ps, k => if p.1 = k then some p.2 else lookupKV ps k

/-- Key membership in an ordered association list (Python `k in d`). -/
def containsKey : List (String × Json) → String → Bool
  | [], _ => false
  | p :: ps, k => if p.1 = k then true else containsKey ps k

/-- Remove the (first) entry with the given key (Python `del d[k]` when the
key is present; a dict holds at most one entry per key). -/
def eraseKey : List (String × Json) → String → List (String × Json)
  | [], _ => []
  | p :: ps, k => if p.1 = k then ps else p :: eraseKey ps k

/-- Replace the value at the (first) entry with the given key, keeping its
position (Python in-place mutation of the value object stored at `d[k]`). -/
def objSet : List (String × Json) → String → Json → List (String × Json)
  | [], _, _ => []
  | p :: ps, k, v => if p.1 = k then (p.1, v) :: ps else p :: objSet ps k v

/-- Pairwise-distinct keys; guaranteed for every object built by `json.load`. -/
def nodupKeys : List (String × Json) → Bool
  | [] => true
  | p :: ps => !containsKey ps p.1 && nodupKeys ps

/-- Does the character list start with the pattern? -/
def charsStartWith : List Char → List Char → Bool
  | _, [] => true
  | [], _ :: _ => false
  | a :: as, b :: bs => a == b && charsStartWith as bs

/-- Does the character list contain the pattern as a contiguous run? -/
def charsContain : List Char → List Char → Bool
  | [], pat => pat.isEmpty
  | a :: rest, pat => charsStartWith (a :: rest) pat || charsContain rest pat

/-- Python substring test `pat in s` for strings. -/
def strContains (s pat : String) : Bool :=
  charsContain s.data pat.data

/-- Python `k in v` for a string literal `k`: key test on dicts, element
equality on lists (a `str` equals only an equal `str`), substring test on
strings, and `TypeError` on `None`, booleans and numbers. -/
def pyContains (v : Json) (k : String) : Except PyErr Bool :=
  match v with
  | .obj kvs => .ok (containsKey kvs k)
  | .arr xs => .ok (xs.any fun x => match x with | .str s => decide (s = k) | _ => false)
  | .str s => .ok (strContains s k)
  | _ => .error .typeError

/-- Python `v[k]` for a string literal `k`: dict lookup (`KeyError` when the
key is absent), `TypeError` on every other type. -/
def pyGetStr (v : Json) (k : String) : Except PyErr Json :=
  match v with
  | .obj kvs =>
    match lookupKV kvs k with
    | some w => .ok w
    | none => .error .keyError
  | _ => .error .typeError

/-- Python `del v[k]` for a string literal `k`. -/
def pyDelStr (v : Json) (k : String) : Except PyErr Json :=
  match v with
  | .obj kvs => if containsKey kvs k then .ok (.obj (eraseKey kvs k)) else .error .keyError
  | _ => .error .typeError

/-- Replace the value stored under `k` when the owner is an object (the
owner is always an object where this is used). -/
def objSetJ : Json → String → Json → Json
  | .obj kvs, k, v => .obj (objSet kvs k v)
  | j, _, _ => j

/-- `has_valid_widget_state` from the source: true iff the value is a dict
containing the key `state`. -/
def has_valid_widget_state (widgets_metadata : Json) : Bool :=
  match widgets_metadata with
  | .obj kvs => containsKey kvs "state"
  | _ => false

/-- The notebook-level block of `fix_notebook`:
`if 'metadata' in notebook: if 'widgets' in notebook['metadata']: ...`,
removing the entry when `has_valid_widget_state` rejects it.  Returns the
(possibly mutated) notebook, the change flag contribution, and the printed
removal notices; errors are the uncaught exceptions of the Python code. -/
def fixNotebookLevel (notebook : Json) : Except PyErr (Json × Bool × List Msg) :=
  match pyContains notebook "metadata" with
  | .error e => .error e
  | .ok false => .ok (notebook, false, [])
  | .ok true =>
    match pyGetStr notebook "metadata" with
    | .error e => .error e
    | .ok md =>
      match pyContains md "widgets" with
      | .error e => .error e
      | .ok false => .ok (notebook, false, [])
      | .ok true =>
        match pyGetStr md "widgets" with
        | .error e => .error e
        | .ok widgets =>
          if has_valid_widget_state widgets then .ok (notebook, false, [])
          else
            match pyDelStr md "widgets" with
            | .error e => .error e
            | .ok md' => .ok (objSetJ notebook "metadata" md', true, [.removedNotebookLevel])

/-- One iteration of the cell loop:
`if 'metadata' in cell and 'widgets' in cell['metadata']: ...`. -/
def processCell (i : Nat) (cell : Json) : Except PyErr (Json × Bool × List Msg) :=
  match pyContains cell "metadata" with
  | .error e => .error e
  | .ok false => .ok (cell, false, [])
  | .ok true =>
    match pyGetStr cell "metadata" with
    | .error e => .error e
    | .ok md =>
      match pyContains md "widgets" with
      | .error e => .error e
      | .ok false => .ok (cell, false, [])
      | .ok true =>
        match pyGetStr md "widgets" with
        | .error e => .error e
        | .ok widgets =>
          if has_valid_widget_state widgets then .ok (cell, false, [])
          else
            match pyDelStr md "widgets" with
            | .error e => .error e
            | .ok md' => .ok (objSetJ cell "metadata" md', true, [.removedCell i])

/-- The cell loop `for i, cell in enumerate(notebook['cells'])`, starting at
index `i`; an exception at any cell aborts the whole run. -/
def processCells (i : Nat) : List Json → Except PyErr (List Json × Bool × List Msg)
  | [] => .ok ([], false, [])
  | c :: cs =>
    match processCell i c with
    | .error e => .error e
    | .ok (c', ch, log) =>
      match processCells (i + 1) cs with
      | .error e => .error e
      | .ok (cs', ch2, log2) => .ok (c' :: cs', ch || ch2, log ++ log2)

/-- What Python iteration yields on each type: list elements, the characters
of a string, the keys of a dict; `None`, booleans and numbers are not
iterable. -/
def iterElems : Json → Option (List Json)
  | .arr xs => some xs
  | .str s => some (s.data.map fun c => Json.str c.toString)
  | .obj kvs => some (kvs.map fun p => Json.str p.1)
  | _ => none

/-- The cells block of `fix_notebook`.  Only when `cells` is a list can the
loop mutate anything (its elements are mutated in place); iterating a string
or the keys of a dict yields immutable strings, on which the loop body either
does nothing or raises. -/
def fixCellsLevel (notebook : Json) : Except PyErr (Json × Bool × List Msg) :=
  match pyContains notebook "cells" with
  | .error e => .error e
  | .ok false => .ok (notebook, false, [])
  | .ok true =>
    match pyGetStr notebook "cells" with
    | .error e => .error e
    | .ok cells =>
      match iterElems cells with
      | none => .error .typeError
      | some elems =>
        match processCells 0 elems with
        | .error e => .error e
        | .ok (elems', ch, log) =>
          match cells with
          | .arr _ => .ok (objSetJ notebook "cells" (.arr elems'), ch, log)
          | _ => .ok (notebook, ch, log)

/-- The whole in-memory transformation performed by `fix_notebook` between
parsing and writing: notebook-level pass, then the cell loop, accumulating
`changes_made` and the removal notices. -/
def fixWidgets (notebook : Json) : Except PyErr (Json × Bool × List Msg) :=
  match fixNotebookLevel notebook with
  | .error e => .error e
  | .ok (nb1, ch1, log1) =>
    match fixCellsLevel nb1 with
    | .error e => .error e
    | .ok (nb2, ch2, log2) => .ok (nb2, ch1 || ch2, log1 ++ log2)

/-- How loading the notebook file can go: missing file, `json.JSONDecodeError`,
any other read error, or a successfully parsed document. -/
inductive ReadResult where
  | notFound
  | parseError
  | readError
  | ok (doc : Json)

/-- The ambient file-system behaviour of one invocation: the outcome of the
load phase and whether the backup copy, the write, and the restore-from-backup
succeed.  `leftover` is whatever bytes a failed write leaves in the file. -/
structure Env where
  read : ReadResult
  backupOk : Bool
  writeOk : Bool
  restoreOk : Bool
  leftover : String

/-- Observable outcome of one `fix_notebook` invocation.  `ret = some b` is
the Python return value; `ret = none` means an exception escaped the function
uncaught.  `mutated` records the in-memory transformation result (document and
`changes_made` flag) when it completed.  `finalContent` is the byte content of
the target file afterwards; `backupContent` the bytes of the backup if one was
created; `wrote` whether a complete successful write of the corrected file
happened. -/
structure RunResult where
  ret : Option Bool
  mutated : Option (Json × Bool)
  log : List Msg
  backupCreated : Bool
  backupContent : Option String
  finalContent : String
  wrote : Bool

/-- `fix_notebook(notebook_path)`: load, transform, and when a change was
made, back up (`shutil.copy2`, byte-verbatim) then write (`json.dump` plus a
trailing newline, abstracted as `ser doc ++ "\n"`), restoring from the backup
if the write fails.  `orig` is the byte content of the target file before the
run. -/
def fix_notebook (ser : Json → String) (orig : String) (env : Env) : RunResult :=
  match env.read with
  | .notFound => ⟨some false, none, [.errNotFound], false, none, orig, false⟩
  | .parseError => ⟨some false, none, [.errParse], false, none, orig, false⟩
  | .readError => ⟨some false, none, [.errRead], false, none, orig, false⟩
  | .ok doc =>
    match fixWidgets doc with
    | .error _ => ⟨none, none, [], false, none, orig, false⟩
    | .ok (doc', changed, log) =>
      if changed then
        if env.backupOk then
          if env.writeOk then
            ⟨some true, some (doc', changed), log ++ [.createdBackup, .fixedOk],
              true, some orig, ser doc' ++ "\n", true⟩
          else if env.restoreOk then
            ⟨some false, some (doc', changed), log ++ [.createdBackup, .errWrite, .restored],
              true, some orig, orig, false⟩
          else
            ⟨some false, some (doc', changed), log ++ [.createdBackup, .errWrite, .errRestore],
              true, some orig, env.leftover, false⟩
        else
          ⟨some false, some (doc', changed), log ++ [.errBackup], false, none, orig, false⟩
      else
        ⟨some true, some (doc', changed), log ++ [.noMalformed], false, none, orig, false⟩

/-- The process exit code: `main` runs `sys.exit(0 if success else 1)`, and a
traceback from an uncaught exception also makes the interpreter exit with 1. -/
def pyExitCode (r : RunResult) : Nat :=
  match r.ret with
  | some true => 0
  | _ => 1

/-! ## Accessors and well-formedness -/

/-- The value at key `k` when the document is an object. -/
def topGet (d : Json) (k : String) : Option Json :=
  match d with
  | .obj kvs => lookupKV kvs k
  | _ => none

/-- The `metadata.widgets` value owned directly by `d` (a notebook or a cell). -/
def metaWidgets (d : Json) : Option Json :=
  match topGet d "metadata" with
  | some m => topGet m "widgets"
  | none => none

/-- The cell list of the document, when `cells` is present and is a list. -/
def cellsOf (d : Json) : Option (List Json) :=
  match topGet d "cells" with
  | some (.arr cs) => some cs
  | _ => none

/-- Well-formed `metadata` slot: absent, or a JSON object without duplicate
keys — what `json.load` yields on any real notebook file. -/
def wfMeta : Option Json → Bool
  | none => true
  | some (.obj m) => nodupKeys m
  | some _ => false

/-- Well-formed cell: an object (without duplicate keys) whose `metadata`, if
present, is an object. -/
def wfCell (c : Json) : Bool :=
  match c with
  | .obj kvs => nodupKeys kvs && wfMeta (lookupKV kvs "metadata")
  | _ => false

/-- Well-formed document, the data model of the spec: a mapping whose
`metadata`, if present, is a mapping and whose `cells`, if present, is a
sequence of well-formed cells. -/
def wfDoc (d : Json) : Bool :=
  match d with
  | .obj kvs =>
    nodupKeys kvs && wfMeta (lookupKV kvs "metadata") &&
      (match lookupKV kvs "cells" with
       | none => true
       | some (.arr cs) => cs.all wfCell
       | some _ => false)
  | _ => false

/-- No `metadata.widgets` entry anywhere: neither at notebook level nor in
any cell. -/
def noWidgets (d : Json) : Bool :=
  (metaWidgets d).isNone &&
    (match cellsOf d with
     | some cs => cs.all fun c => (metaWidgets c).isNone
     | none => true)

/-! ## Pure description of the transformation

`cleanOwner` is the effect of one (notebook-level or cell-level) pass on the
object that owns a `metadata` entry; `repairDoc` composes the passes.  The
correspondence theorem `fixWidgets_wf` below shows that on well-formed
documents `fixWidgets` computes exactly this, with no exception. -/

/-- Remove `metadata.widgets` from one owner object if it is present and
invalid; the second component is the change flag. -/
def cleanOwner (kvs : List (String × Json)) : List (String × Json) × Bool :=
  match lookupKV kvs "metadata" with
  | some (.obj m) =>
    match lookupKV m "widgets" with
    | some w =>
      if has_valid_widget_state w then (kvs, false)
      else (objSet kvs "metadata" (.obj (eraseKey m "widgets")), true)
    | none => (kvs, false)
  | _ => (kvs, false)

/-- `cleanOwner` lifted to a cell value. -/
def cleanCell (c : Json) : Json × Bool :=
  match c with
  | .obj kvs => (.obj (cleanOwner kvs).1, (cleanOwner kvs).2)
  | _ => (c, false)

/-- Clean every cell, recording the indices of the removals. -/
def cleanCells (i : Nat) : List Json → List Json × Bool × List Msg
  | [] => ([], false, [])
  | c :: cs =>
    let r := cleanCell c
    let rs := cleanCells (i + 1) cs
    (r.1 :: rs.1, r.2 || rs.2.1, (if r.2 then [Msg.removedCell i] else []) ++ rs.2.2)

/-- The whole transformation on a well-formed document: notebook-level pass,
then the cell pass. -/
def repairDoc (d : Json) : Json × Bool × List Msg :=
  match d with
  | .obj kvs =>
    let r1 := cleanOwner kvs
    let log1 := if r1.2 then [Msg.removedNotebookLevel] else []
    match lookupKV r1.1 "cells" with
    | some (.arr cs) =>
      let r2 := cleanCells 0 cs
      (.obj (objSet r1.1 "cells" (.arr r2.1)), r1.2 || r2.2.1, log1 ++ r2.2.2)
    | _ => (.obj r1.1, r1.2, log1)
  | _ => (d, false, [])

/-! ## Association-list lemmas -/

theorem containsKey_eq_isSome (kvs : List (String × Json)) (k : String) :
    containsKey kvs k = (lookupKV kvs k).isSome := by
  induction kvs with
  | nil => rfl
  | cons p ps ih =>
    by_cases h : p.1 = k <;> simp [containsKey, lookupKV, h, ih]

theorem objSet_map_fst (kvs : List (String × Json)) (k : String) (v : Json) :
    (objSet kvs k v).map Prod.fst = kvs.map Prod.fst := by
  induction kvs with
  | nil => rfl
  | cons p ps ih =>
    by_cases h : p.1 = k <;> simp [objSet, h, ih]

theorem lookupKV_objSet_ne (kvs : List (String × Json)) (k k' : String) (v : Json)
    (h : k' ≠ k) : lookupKV (objSet kvs k v) k' = lookupKV kvs k' := by
  induction kvs with
  | nil => rfl
  | cons p ps ih =>
    obtain ⟨a, b⟩ := p
    by_cases h1 : a = k
    · subst h1
      have h2 : ¬ a = k' := fun h3 => h h3.symm
      simp only [objSet, if_pos rfl, lookupKV, if_neg h2]
    · simp only [objSet, if_neg h1, lookupKV]
      by_cases h2 : a = k'
      · simp only [if_pos h2]
      · simp only [if_neg h2]
        exact ih

theorem lookupKV_objSet_self (kvs : List (String × Json)) (k : String) (v : Json)
    (h : containsKey kvs k = true) : lookupKV (objSet kvs k v) k = some v := by
  induction kvs with
  | nil => simp [containsKey] at h
  | cons p ps ih =>
    obtain ⟨a, b⟩ := p
    by_cases h1 : a = k
    · simp [objSet, h1, lookupKV]
    · simp only [containsKey, if_neg h1] at h
      simp [objSet, h1, lookupKV, ih h]

theorem objSet_id (kvs : List (String × Json)) (k : String) (v : Json)
    (h : lookupKV kvs k = some v) : objSet kvs k v = kvs := by
  induction kvs with
  | nil => simp [lookupKV] at h
  | cons p ps ih =>
    obtain ⟨a, b⟩ := p
    by_cases h1 : a = k
    · simp only [lookupKV, if_pos h1] at h
      obtain rfl : b = v := by simpa using h
      simp [objSet, h1]
    · simp only [lookupKV, if_neg h1] at h
      simp [objSet, h1, ih h]

theorem lookupKV_eraseKey_ne (kvs : List (String × Json)) (k k' : String)
    (h : k' ≠ k) : lookupKV (eraseKey kvs k) k' = lookupKV kvs k' := by
  induction kvs with
  | nil => rfl
  | cons p ps ih =>
    obtain ⟨a, b⟩ := p
    by_cases h1 : a = k
    · subst h1
      have h2 : ¬ a = k' := fun h3 => h h3.symm
      simp [eraseKey, lookupKV, h2]
    · simp only [eraseKey, if_neg h1, lookupKV]
      by_cases h2 : a = k'
      · simp only [if_pos h2]
      · simp only [if_neg h2]
        exact ih

theorem lookupKV_eraseKey_self (kvs : List (String × Json)) (k : String)
    (h : nodupKeys kvs = true) : lookupKV (eraseKey kvs k) k = none := by
  induction kvs with
  | nil => rfl
  | cons p ps ih =>
    obtain ⟨a, b⟩ := p
    simp only [nodupKeys, Bool.and_eq_true, Bool.not_eq_true'] at h
    by_cases h1 : a = k
    · subst h1
      rw [containsKey_eq_isSome] at h
      simp only [eraseKey, if_pos rfl]
      cases h2 : lookupKV ps a <;> simp [h2] at h ⊢
    · simp [eraseKey, h1, lookupKV, ih h.2]

theorem containsKey_eraseKey_imp (kvs : List (String × Json)) (k k' : String)
    (h : containsKey (eraseKey kvs k) k' = true) : containsKey kvs k' = true := by
  induction kvs with
  | nil => simp [eraseKey, containsKey] at h
  | cons p ps ih =>
    obtain ⟨a, b⟩ := p
    by_cases h1 : a = k
    · simp only [eraseKey, if_pos h1] at h
      by_cases h2 : a = k' <;> simp [containsKey, h2, h]
    · simp only [eraseKey, if_neg h1, containsKey] at h ⊢
      by_cases h2 : a = k'
      · simp [h2]
      · simp only [if_neg h2] at h ⊢
        exact ih h

theorem nodupKeys_eraseKey (kvs : List (String × Json)) (k : String)
    (h : nodupKeys kvs = true) : nodupKeys (eraseKey kvs k) = true := by
  induction kvs with
  | nil => rfl
  | cons p ps ih =>
    obtain ⟨a, b⟩ := p
    simp only [nodupKeys, Bool.and_eq_true, Bool.not_eq_true'] at h
    by_cases h1 : a = k
    · simp [eraseKey, h1, h.2]
    · simp only [eraseKey, if_neg h1, nodupKeys, Bool.and_eq_true, Bool.not_eq_true']
      refine ⟨?_, ih h.2⟩
      cases h3 : containsKey (eraseKey ps k) a
      · rfl
      · exact absurd (containsKey_eraseKey_imp ps k a h3) (by simp [h.1])

theorem containsKey_objSet (kvs : List (String × Json)) (k k' : String) (v : Json) :
    containsKey (objSet kvs k v) k' = containsKey kvs k' := by
  induction kvs with
  | nil => rfl
  | cons p ps ih =>
    obtain ⟨a, b⟩ := p
    by_cases h1 : a = k
    · simp only [objSet, if_pos h1, containsKey]
    · simp only [objSet, if_neg h1, containsKey]
      by_cases h2 : a = k'
      · simp only [if_pos h2]
      · simp only [if_neg h2]
        exact ih

theorem nodupKeys_objSet (kvs : List (String × Json)) (k : String) (v : Json)
    (h : nodupKeys kvs = true) : nodupKeys (objSet kvs k v) = true := by
  induction kvs with
  | nil => rfl
  | cons p ps ih =>
    obtain ⟨a, b⟩ := p
    simp only [nodupKeys, Bool.and_eq_true, Bool.not_eq_true'] at h
    by_cases h1 : a = k
    · subst h1
      simp [objSet, nodupKeys, h.1, h.2]
    · simp only [objSet, if_neg h1, nodupKeys, Bool.and_eq_true, Bool.not_eq_true']
      exact ⟨by rw [containsKey_objSet]; exact h.1, ih h.2⟩

theorem filter_keyNe_of_notMem (ps : List (String × Json)) (k : String)
    (h : containsKey ps k = false) :
    ps.filter (fun q => !(q.1 = k : Bool)) = ps := by
  induction ps with
  | nil => rfl
  | cons q qs ih =>
    obtain ⟨a, b⟩ := q
    by_cases h2 : a = k
    · simp only [containsKey, if_pos h2] at h
      simp at h
    · simp only [containsKey, if_neg h2] at h
      simp only [List.filter_cons]
      rw [if_pos (by simp [h2]), ih h]

theorem eraseKey_eq_filter (kvs : List (String × Json)) (k : String)
    (h : nodupKeys kvs = true) :
    eraseKey kvs k = kvs.filter (fun p => !(p.1 = k : Bool)) := by
  induction kvs with
  | nil => rfl
  | cons p ps ih =>
    obtain ⟨a, b⟩ := p
    simp only [nodupKeys, Bool.and_eq_true, Bool.not_eq_true'] at h
    by_cases h1 : a = k
    · subst h1
      have e1 : eraseKey ((a, b) :: ps) a = ps := by simp [eraseKey]
      have e2 : List.filter (fun p => !(p.1 = a : Bool)) ((a, b) :: ps)
          = List.filter (fun p => !(p.1 = a : Bool)) ps := by
        simp [List.filter_cons]
      rw [e1, e2]
      exact (filter_keyNe_of_notMem ps a h.1).symm
    · simp only [eraseKey, if_neg h1, List.filter_cons]
      rw [if_pos (by simp [h1]), ih h.2]

/-! ## Correspondence: the embedded code computes `repairDoc` on well-formed
documents -/

theorem fixNotebookLevel_eq (kvs : List (String × Json))
    (h : wfMeta (lookupKV kvs "metadata") = true) :
    fixNotebookLevel (.obj kvs) =
      .ok (.obj (cleanOwner kvs).1, (cleanOwner kvs).2,
        if (cleanOwner kvs).2 then [Msg.removedNotebookLevel] else []) := by
  cases hm : lookupKV kvs "metadata" with
  | none =>
    have hc : containsKey kvs "metadata" = false := by rw [containsKey_eq_isSome, hm]; rfl
    simp [fixNotebookLevel, pyContains, hc, cleanOwner, hm]
  | some md =>
    have hc : containsKey kvs "metadata" = true := by rw [containsKey_eq_isSome, hm]; rfl
    rw [hm] at h
    cases md with
    | obj m =>
      cases hw : lookupKV m "widgets" with
      | none =>
        have hcw : containsKey m "widgets" = false := by rw [containsKey_eq_isSome, hw]; rfl
        simp [fixNotebookLevel, pyContains, hc, pyGetStr, hm, hcw, cleanOwner, hw]
      | some w =>
        have hcw : containsKey m "widgets" = true := by rw [containsKey_eq_isSome, hw]; rfl
        cases hv : has_valid_widget_state w
        · simp [fixNotebookLevel, pyContains, hc, pyGetStr, hm, hcw, hw, hv, pyDelStr,
            objSetJ, cleanOwner]
        · simp [fixNotebookLevel, pyContains, hc, pyGetStr, hm, hcw, hw, hv, cleanOwner]
    | null => simp [wfMeta] at h
    | bool b => simp [wfMeta] at h
    | num n => simp [wfMeta] at h
    | str s => simp [wfMeta] at h
    | arr xs => simp [wfMeta] at h

theorem processCell_eq (i : Nat) (c : Json) (h : wfCell c = true) :
    processCell i c =
      .ok ((cleanCell c).1, (cleanCell c).2,
        if (cleanCell c).2 then [Msg.removedCell i] else []) := by
  cases c with
  | obj kvs =>
    simp only [wfCell, Bool.and_eq_true] at h
    cases hm : lookupKV kvs "metadata" with
    | none =>
      have hc : containsKey kvs "metadata" = false := by rw [containsKey_eq_isSome, hm]; rfl
      simp [processCell, pyContains, hc, cleanCell, cleanOwner, hm]
    | some md =>
      have hc : containsKey kvs "metadata" = true := by rw [containsKey_eq_isSome, hm]; rfl
      have h2 := h.2
      rw [hm] at h2
      cases md with
      | obj m =>
        cases hw : lookupKV m "widgets" with
        | none =>
          have hcw : containsKey m "widgets" = false := by rw [containsKey_eq_isSome, hw]; rfl
          simp [processCell, pyContains, hc, pyGetStr, hm, hcw, cleanCell, cleanOwner, hw]
        | some w =>
          have hcw : containsKey m "widgets" = true := by rw [containsKey_eq_isSome, hw]; rfl
          cases hv : has_valid_widget_state w
          · simp [processCell, pyContains, hc, pyGetStr, hm, hcw, hw, hv, pyDelStr,
              objSetJ, cleanCell, cleanOwner]
          · simp [processCell, pyContains, hc, pyGetStr, hm, hcw, hw, hv, cleanCell, cleanOwner]
      | null => simp [wfMeta] at h2
      | bool b => simp [wfMeta] at h2
      | num n => simp [wfMeta] at h2
      | str s => simp [wfMeta] at h2
      | arr xs => simp [wfMeta] at h2
  | null => simp [wfCell] at h
  | bool b => simp [wfCell] at h
  | num n => simp [wfCell] at h
  | str s => simp [wfCell] at h
  | arr xs => simp [wfCell] at h

theorem processCells_eq (cs : List Json) (i : Nat) (h : ∀ c ∈ cs, wfCell c = true) :
    processCells i cs = .ok (cleanCells i cs) := by
  induction cs generalizing i with
  | nil => rfl
  | cons c cs ih =>
    have hc := h c (List.mem_cons_self c cs)
    have hrest : ∀ x ∈ cs, wfCell x = true := fun x hx => h x (List.mem_cons_of_mem c hx)
    simp [processCells, processCell_eq i c hc, ih (i + 1) hrest, cleanCells]

theorem fixCellsLevel_none (kvs : List (String × Json))
    (h : lookupKV kvs "cells" = none) :
    fixCellsLevel (.obj kvs) = .ok (.obj kvs, false, []) := by
  have hc : containsKey kvs "cells" = false := by rw [containsKey_eq_isSome, h]; rfl
  simp [fixCellsLevel, pyContains, hc]

theorem fixCellsLevel_arr (kvs : List (String × Json)) (cs : List Json)
    (h : lookupKV kvs "cells" = some (.arr cs)) (hwf : ∀ c ∈ cs, wfCell c = true) :
    fixCellsLevel (.obj kvs) =
      .ok (.obj (objSet kvs "cells" (.arr (cleanCells 0 cs).1)),
        (cleanCells 0 cs).2.1, (cleanCells 0 cs).2.2) := by
  have hc : containsKey kvs "cells" = true := by rw [containsKey_eq_isSome, h]; rfl
  simp [fixCellsLevel, pyContains, hc, pyGetStr, h, iterElems, processCells_eq cs 0 hwf,
    objSetJ]

/-- `metadata` is the only top-level entry the notebook-level pass can touch. -/
theorem cleanOwner_lookup_ne (kvs : List (String × Json)) (k : String)
    (h : k ≠ "metadata") : lookupKV (cleanOwner kvs).1 k = lookupKV kvs k := by
  cases hm : lookupKV kvs "metadata" with
  | none => simp [cleanOwner, hm]
  | some md =>
    cases md with
    | obj m =>
      cases hw : lookupKV m "widgets" with
      | none => simp [cleanOwner, hm, hw]
      | some w =>
        cases hv : has_valid_widget_state w with
        | false =>
          simp only [cleanOwner, hm, hw, hv, Bool.false_eq_true, if_false]
          exact lookupKV_objSet_ne kvs "metadata" k (.obj (eraseKey m "widgets")) h
        | true => simp [cleanOwner, hm, hw, hv]
    | null => simp [cleanOwner, hm]
    | bool b => simp [cleanOwner, hm]
    | num n => simp [cleanOwner, hm]
    | str s => simp [cleanOwner, hm]
    | arr xs => simp [cleanOwner, hm]

/-- On a well-formed document the code raises nothing and computes exactly
`repairDoc`. -/
theorem fixWidgets_wf (d : Json) (h : wfDoc d = true) :
    fixWidgets d = .ok (repairDoc d) := by
  cases d with
  | obj kvs =>
    simp only [wfDoc, Bool.and_eq_true] at h
    obtain ⟨⟨hnd, hmeta⟩, hcells⟩ := h
    rw [fixWidgets, fixNotebookLevel_eq kvs hmeta]
    have hlook : lookupKV (cleanOwner kvs).1 "cells" = lookupKV kvs "cells" :=
      cleanOwner_lookup_ne kvs "cells" (by decide)
    cases hc : lookupKV kvs "cells" with
    | none =>
      have h2 : lookupKV (cleanOwner kvs).1 "cells" = none := by rw [hlook, hc]
      simp [fixCellsLevel_none _ h2, repairDoc, hc, h2]
    | some cv =>
      cases cv with
      | arr cs =>
        have hwf : ∀ c ∈ cs, wfCell c = true := by
          rw [hc] at hcells
          simpa [List.all_eq_true] using hcells
        have h2 : lookupKV (cleanOwner kvs).1 "cells" = some (.arr cs) := by rw [hlook, hc]
        simp [fixCellsLevel_arr _ cs h2 hwf, repairDoc, hc, h2]
      | null => rw [hc] at hcells; simp at hcells
      | bool b => rw [hc] at hcells; simp at hcells
      | num n => rw [hc] at hcells; simp at hcells
      | str s => rw [hc] at hcells; simp at hcells
      | obj m => rw [hc] at hcells; simp at hcells
  | null => simp [wfDoc] at h
  | bool b => simp [wfDoc] at h
  | num n => simp [wfDoc] at h
  | str s => simp [wfDoc] at h
  | arr xs => simp [wfDoc] at h

/-! ## Properties of the pure transformation -/

/-- An owner object is clean when its `metadata.widgets`, if present, is valid. -/
def metaClean (kvs : List (String × Json)) : Prop :=
  ∀ m w, lookupKV kvs "metadata" = some (.obj m) → lookupKV m "widgets" = some w →
    has_valid_widget_state w = true

theorem cleanOwner_of_metaClean (kvs : List (String × Json)) (h : metaClean kvs) :
    cleanOwner kvs = (kvs, false) := by
  cases hm : lookupKV kvs "metadata" with
  | none => simp [cleanOwner, hm]
  | some md =>
    cases md with
    | obj m =>
      cases hw : lookupKV m "widgets" with
      | none => simp [cleanOwner, hm, hw]
      | some w => simp [cleanOwner, hm, hw, h m w hm hw]
    | null => simp [cleanOwner, hm]
    | bool b => simp [cleanOwner, hm]
    | num n => simp [cleanOwner, hm]
    | str s => simp [cleanOwner, hm]
    | arr xs => simp [cleanOwner, hm]

theorem metaClean_of_noWidgets (kvs : List (String × Json))
    (h : metaWidgets (.obj kvs) = none) : metaClean kvs := by
  intro m w hm hw
  simp [metaWidgets, topGet, hm, hw] at h

theorem cleanOwner_of_noWidgets (kvs : List (String × Json))
    (h : metaWidgets (.obj kvs) = none) : cleanOwner kvs = (kvs, false) :=
  cleanOwner_of_metaClean kvs (metaClean_of_noWidgets kvs h)

theorem metaClean_of_valid (kvs m0 : List (String × Json)) (w0 : Json)
    (hm : lookupKV kvs "metadata" = some (.obj m0))
    (hw : lookupKV m0 "widgets" = some w0)
    (hv : has_valid_widget_state w0 = true) : metaClean kvs := by
  intro m w hm1 hw1
  rw [hm] at hm1
  injection hm1 with h1
  injection h1 with h2
  subst h2
  rw [hw] at hw1
  injection hw1 with h3
  subst h3
  exact hv

theorem cleanOwner_invalid (kvs m : List (String × Json)) (w : Json)
    (hm : lookupKV kvs "metadata" = some (.obj m))
    (hw : lookupKV m "widgets" = some w)
    (hv : has_valid_widget_state w = false) :
    cleanOwner kvs = (objSet kvs "metadata" (.obj (eraseKey m "widgets")), true) := by
  simp [cleanOwner, hm, hw, hv]

/-- Widgets lookup through an owner whose `metadata` entry was replaced. -/
theorem metaWidgets_objSet_meta (kvs : List (String × Json)) (X : Json)
    (h : containsKey kvs "metadata" = true) :
    metaWidgets (.obj (objSet kvs "metadata" X)) = topGet X "widgets" := by
  simp only [metaWidgets, topGet, lookupKV_objSet_self kvs "metadata" X h]

/-- The removal branch leaves no widgets entry behind. -/
theorem metaWidgets_after_removal (kvs m : List (String × Json))
    (hm : lookupKV kvs "metadata" = some (.obj m)) (hnd : nodupKeys m = true) :
    metaWidgets (.obj (objSet kvs "metadata" (.obj (eraseKey m "widgets")))) = none := by
  rw [metaWidgets_objSet_meta kvs _ (by rw [containsKey_eq_isSome, hm]; rfl)]
  simp only [topGet]
  exact lookupKV_eraseKey_self m "widgets" hnd

/-- After one pass on a well-formed owner, the owner is clean. -/
theorem metaClean_cleanOwner (kvs : List (String × Json))
    (h : wfMeta (lookupKV kvs "metadata") = true) : metaClean (cleanOwner kvs).1 := by
  cases hm : lookupKV kvs "metadata" with
  | none =>
    rw [cleanOwner_of_noWidgets kvs (by simp [metaWidgets, topGet, hm])]
    exact metaClean_of_noWidgets kvs (by simp [metaWidgets, topGet, hm])
  | some md =>
    rw [hm] at h
    cases md with
    | obj m0 =>
      cases hw : lookupKV m0 "widgets" with
      | none =>
        rw [cleanOwner_of_noWidgets kvs (by simp [metaWidgets, topGet, hm, hw])]
        exact metaClean_of_noWidgets kvs (by simp [metaWidgets, topGet, hm, hw])
      | some w0 =>
        cases hv : has_valid_widget_state w0 with
        | true =>
          rw [cleanOwner_of_metaClean kvs (metaClean_of_valid kvs m0 w0 hm hw hv)]
          exact metaClean_of_valid kvs m0 w0 hm hw hv
        | false =>
          rw [cleanOwner_invalid kvs m0 w0 hm hw hv]
          exact metaClean_of_noWidgets _
            (metaWidgets_after_removal kvs m0 hm (by simpa [wfMeta] using h))
    | null => simp [wfMeta] at h
    | bool b => simp [wfMeta] at h
    | num n => simp [wfMeta] at h
    | str s => simp [wfMeta] at h
    | arr xs => simp [wfMeta] at h

/-- `metaClean` only looks at the `metadata` entry, so setting another key
preserves it. -/
theorem metaClean_objSet (kvs : List (String × Json)) (k : String) (v : Json)
    (hk : k ≠ "metadata") (h : metaClean kvs) : metaClean (objSet kvs k v) := by
  intro m w hm hw
  rw [lookupKV_objSet_ne kvs k "metadata" v (fun h2 => hk h2.symm)] at hm
  exact h m w hm hw

/-- Any widgets block remaining after one owner pass was already there and is
valid. -/
theorem metaWidgets_cleanOwner (kvs : List (String × Json))
    (h : wfMeta (lookupKV kvs "metadata") = true) (w : Json)
    (hw : metaWidgets (.obj (cleanOwner kvs).1) = some w) :
    has_valid_widget_state w = true ∧ metaWidgets (.obj kvs) = some w := by
  cases hm : lookupKV kvs "metadata" with
  | none =>
    rw [cleanOwner_of_noWidgets kvs (by simp [metaWidgets, topGet, hm])] at hw
    simp [metaWidgets, topGet, hm] at hw
  | some md =>
    rw [hm] at h
    cases md with
    | obj m0 =>
      cases hw0 : lookupKV m0 "widgets" with
      | none =>
        rw [cleanOwner_of_noWidgets kvs (by simp [metaWidgets, topGet, hm, hw0])] at hw
        simp [metaWidgets, topGet, hm, hw0] at hw
      | some w0 =>
        cases hv : has_valid_widget_state w0 with
        | true =>
          have hval : metaWidgets (Json.obj kvs) = some w0 := by
            simp [metaWidgets, topGet, hm, hw0]
          rw [cleanOwner_of_metaClean kvs (metaClean_of_valid kvs m0 w0 hm hw0 hv)] at hw
          rw [hval] at hw
          injection hw with h1
          subst h1
          exact ⟨hv, hval⟩
        | false =>
          rw [cleanOwner_invalid kvs m0 w0 hm hw0 hv] at hw
          rw [show ((objSet kvs "metadata" (Json.obj (eraseKey m0 "widgets")), true)).1
              = objSet kvs "metadata" (Json.obj (eraseKey m0 "widgets")) from rfl] at hw
          rw [metaWidgets_after_removal kvs m0 hm (by simpa [wfMeta] using h)] at hw
          exact Option.noConfusion hw
    | null => simp [wfMeta] at h
    | bool b => simp [wfMeta] at h
    | num n => simp [wfMeta] at h
    | str s => simp [wfMeta] at h
    | arr xs => simp [wfMeta] at h

/-- One owner pass preserves key uniqueness and metadata shape. -/
theorem wfOwner_cleanOwner (kvs : List (String × Json))
    (hnd : nodupKeys kvs = true) (h : wfMeta (lookupKV kvs "metadata") = true) :
    nodupKeys (cleanOwner kvs).1 = true ∧
      wfMeta (lookupKV (cleanOwner kvs).1 "metadata") = true := by
  cases hm : lookupKV kvs "metadata" with
  | none =>
    rw [cleanOwner_of_noWidgets kvs (by simp [metaWidgets, topGet, hm])]
    exact ⟨hnd, h⟩
  | some md =>
    cases md with
    | obj m0 =>
      cases hw : lookupKV m0 "widgets" with
      | none =>
        rw [cleanOwner_of_noWidgets kvs (by simp [metaWidgets, topGet, hm, hw])]
        exact ⟨hnd, h⟩
      | some w0 =>
        cases hv : has_valid_widget_state w0 with
        | true =>
          rw [cleanOwner_of_metaClean kvs (metaClean_of_valid kvs m0 w0 hm hw hv)]
          exact ⟨hnd, h⟩
        | false =>
          rw [hm] at h
          rw [cleanOwner_invalid kvs m0 w0 hm hw hv]
          refine ⟨nodupKeys_objSet kvs "metadata" _ hnd, ?_⟩
          rw [show ((objSet kvs "metadata" (Json.obj (eraseKey m0 "widgets")), true)).1
              = objSet kvs "metadata" (Json.obj (eraseKey m0 "widgets")) from rfl]
          rw [lookupKV_objSet_self kvs "metadata" _
            (by rw [containsKey_eq_isSome, hm]; rfl)]
          simpa [wfMeta] using
            nodupKeys_eraseKey m0 "widgets" (by simpa [wfMeta] using h)
    | null => rw [hm] at h; simp [wfMeta] at h
    | bool b => rw [hm] at h; simp [wfMeta] at h
    | num n => rw [hm] at h; simp [wfMeta] at h
    | str s => rw [hm] at h; simp [wfMeta] at h
    | arr xs => rw [hm] at h; simp [wfMeta] at h

/-! ## Cell-level consequences -/

/-- A clean cell: if it is an object, its owner association list is clean. -/
def cellClean (c : Json) : Prop :=
  ∀ kvs, c = .obj kvs → metaClean kvs

theorem cleanCell_of_cellClean (c : Json) (h : cellClean c) : cleanCell c = (c, false) := by
  cases c with
  | obj kvs => simp [cleanCell, cleanOwner_of_metaClean kvs (h kvs rfl)]
  | null => rfl
  | bool b => rfl
  | num n => rfl
  | str s => rfl
  | arr xs => rfl

theorem cellClean_cleanCell (c : Json) (h : wfCell c = true) : cellClean (cleanCell c).1 := by
  cases c with
  | obj kvs =>
    simp only [wfCell, Bool.and_eq_true] at h
    intro kvs2 he
    injection he with h2
    subst h2
    exact metaClean_cleanOwner kvs h.2
  | null => simp [wfCell] at h
  | bool b => simp [wfCell] at h
  | num n => simp [wfCell] at h
  | str s => simp [wfCell] at h
  | arr xs => simp [wfCell] at h

theorem wfCell_cleanCell (c : Json) (h : wfCell c = true) : wfCell (cleanCell c).1 = true := by
  cases c with
  | obj kvs =>
    simp only [wfCell, Bool.and_eq_true] at h
    obtain ⟨hw1, hw2⟩ := wfOwner_cleanOwner kvs h.1 h.2
    simp [cleanCell, wfCell, hw1, hw2]
  | null => simp [wfCell] at h
  | bool b => simp [wfCell] at h
  | num n => simp [wfCell] at h
  | str s => simp [wfCell] at h
  | arr xs => simp [wfCell] at h

theorem metaWidgets_cleanCell (c : Json) (h : wfCell c = true) (w : Json)
    (hw : metaWidgets (cleanCell c).1 = some w) :
    has_valid_widget_state w = true ∧ metaWidgets c = some w := by
  cases c with
  | obj kvs =>
    simp only [wfCell, Bool.and_eq_true] at h
    exact metaWidgets_cleanOwner kvs h.2 w hw
  | null => simp [wfCell] at h
  | bool b => simp [wfCell] at h
  | num n => simp [wfCell] at h
  | str s => simp [wfCell] at h
  | arr xs => simp [wfCell] at h

theorem cleanCell_of_noWidgets (c : Json) (h : metaWidgets c = none) :
    cleanCell c = (c, false) := by
  cases c with
  | obj kvs => simp [cleanCell, cleanOwner_of_noWidgets kvs h]
  | null => rfl
  | bool b => rfl
  | num n => rfl
  | str s => rfl
  | arr xs => rfl

theorem cleanCells_fst (cs : List Json) (i : Nat) :
    (cleanCells i cs).1 = cs.map fun c => (cleanCell c).1 := by
  induction cs generalizing i with
  | nil => rfl
  | cons c cs ih => simp [cleanCells, ih]

theorem cleanCells_noop (cs : List Json) (i : Nat)
    (h : ∀ c ∈ cs, cleanCell c = (c, false)) : cleanCells i cs = (cs, false, []) := by
  induction cs generalizing i with
  | nil => rfl
  | cons c cs ih =>
    have hc := h c (List.mem_cons_self c cs)
    have ihr := ih (i + 1) fun x hx => h x (List.mem_cons_of_mem c hx)
    simp [cleanCells, hc, ihr]

/-! ## Document-level consequences -/

theorem wfDoc_repairDoc (d : Json) (h : wfDoc d = true) : wfDoc (repairDoc d).1 = true := by
  cases d with
  | obj kvs =>
    simp only [wfDoc, Bool.and_eq_true] at h
    obtain ⟨⟨hnd, hmeta⟩, hcells⟩ := h
    have hlook : lookupKV (cleanOwner kvs).1 "cells" = lookupKV kvs "cells" :=
      cleanOwner_lookup_ne kvs "cells" (by decide)
    obtain ⟨hnd1, hmeta1⟩ := wfOwner_cleanOwner kvs hnd hmeta
    cases hc : lookupKV kvs "cells" with
    | none =>
      have h2 : lookupKV (cleanOwner kvs).1 "cells" = none := by rw [hlook, hc]
      simp [repairDoc, h2, wfDoc, hnd1, hmeta1]
    | some cv =>
      rw [hc] at hcells
      cases cv with
      | arr cs =>
        have hwf : ∀ c ∈ cs, wfCell c = true := by simpa [List.all_eq_true] using hcells
        have h2 : lookupKV (cleanOwner kvs).1 "cells" = some (.arr cs) := by rw [hlook, hc]
        have h3 : lookupKV (objSet (cleanOwner kvs).1 "cells" (.arr (cleanCells 0 cs).1))
            "metadata" = lookupKV (cleanOwner kvs).1 "metadata" :=
          lookupKV_objSet_ne _ "cells" "metadata" _ (by decide)
        have h4 : lookupKV (objSet (cleanOwner kvs).1 "cells" (.arr (cleanCells 0 cs).1))
            "cells" = some (.arr (cleanCells 0 cs).1) :=
          lookupKV_objSet_self _ "cells" _ (by rw [containsKey_eq_isSome, h2]; rfl)
        simp only [repairDoc, h2, wfDoc, Bool.and_eq_true, h3, h4]
        refine ⟨⟨nodupKeys_objSet _ _ _ hnd1, hmeta1⟩, ?_⟩
        simp only [cleanCells_fst, List.all_eq_true]
        intro x hx
        obtain ⟨c, hcmem, rfl⟩ := List.mem_map.mp hx
        exact wfCell_cleanCell c (hwf c hcmem)
      | null => simp at hcells
      | bool b => simp at hcells
      | num n => simp at hcells
      | str s => simp at hcells
      | obj m => simp at hcells
  | null => simp [wfDoc] at h
  | bool b => simp [wfDoc] at h
  | num n => simp [wfDoc] at h
  | str s => simp [wfDoc] at h
  | arr xs => simp [wfDoc] at h

theorem repairDoc_idem (d : Json) (h : wfDoc d = true) :
    repairDoc (repairDoc d).1 = ((repairDoc d).1, false, []) := by
  cases d with
  | obj kvs =>
    simp only [wfDoc, Bool.and_eq_true] at h
    obtain ⟨⟨hnd, hmeta⟩, hcells⟩ := h
    have hlook : lookupKV (cleanOwner kvs).1 "cells" = lookupKV kvs "cells" :=
      cleanOwner_lookup_ne kvs "cells" (by decide)
    have hclean1 : metaClean (cleanOwner kvs).1 := metaClean_cleanOwner kvs hmeta
    cases hc : lookupKV kvs "cells" with
    | none =>
      have h2 : lookupKV (cleanOwner kvs).1 "cells" = none := by rw [hlook, hc]
      simp [repairDoc, h2, cleanOwner_of_metaClean _ hclean1]
    | some cv =>
      rw [hc] at hcells
      cases cv with
      | arr cs =>
        have hwf : ∀ c ∈ cs, wfCell c = true := by simpa [List.all_eq_true] using hcells
        have h2 : lookupKV (cleanOwner kvs).1 "cells" = some (.arr cs) := by rw [hlook, hc]
        have hcleanK : metaClean (objSet (cleanOwner kvs).1 "cells"
            (.arr (cleanCells 0 cs).1)) :=
          metaClean_objSet _ "cells" _ (by decide) hclean1
        have e1 := cleanOwner_of_metaClean _ hcleanK
        have e2 : lookupKV (objSet (cleanOwner kvs).1 "cells" (.arr (cleanCells 0 cs).1))
            "cells" = some (.arr (cleanCells 0 cs).1) :=
          lookupKV_objSet_self _ "cells" _ (by rw [containsKey_eq_isSome, h2]; rfl)
        have e3 : cleanCells 0 (cleanCells 0 cs).1 = ((cleanCells 0 cs).1, false, []) := by
          apply cleanCells_noop
          intro x hx
          rw [cleanCells_fst] at hx
          obtain ⟨c, hcmem, rfl⟩ := List.mem_map.mp hx
          exact cleanCell_of_cellClean _ (cellClean_cleanCell c (hwf c hcmem))
        have e4 := objSet_id _ _ _ e2
        simp [repairDoc, h2, e1, e2, e3, e4]
      | null => simp at hcells
      | bool b => simp at hcells
      | num n => simp at hcells
      | str s => simp at hcells
      | obj m => simp at hcells
  | null => simp [wfDoc] at h
  | bool b => simp [wfDoc] at h
  | num n => simp [wfDoc] at h
  | str s => simp [wfDoc] at h
  | arr xs => simp [wfDoc] at h

/-! ## The claims -/

/-- C1: `has_valid_widget_state` returns true exactly when its input is a
mapping that contains the key `state` (whose contents are not inspected);
lists, strings, numbers, booleans and null all yield false.  The function is
a pure function of its argument in this embedding, mirroring the side-effect
free source code. -/
theorem c1_has_valid_widget_state_spec :
    (∀ v : Json, has_valid_widget_state v = true ↔
      ∃ kvs, v = Json.obj kvs ∧ containsKey kvs "state" = true) ∧
    (∀ xs, has_valid_widget_state (Json.arr xs) = false) ∧
    (∀ s, has_valid_widget_state (Json.str s) = false) ∧
    (∀ n, has_valid_widget_state (Json.num n) = false) ∧
    (∀ b, has_valid_widget_state (Json.bool b) = false) ∧
    has_valid_widget_state Json.null = false := by
  refine ⟨?_, fun xs => rfl, fun s => rfl, fun n => rfl, fun b => rfl, rfl⟩
  intro v
  constructor
  · intro h
    cases v with
    | obj kvs => exact ⟨kvs, rfl, h⟩
    | null => simp [has_valid_widget_state] at h
    | bool b => simp [has_valid_widget_state] at h
    | num n => simp [has_valid_widget_state] at h
    | str s => simp [has_valid_widget_state] at h
    | arr xs => simp [has_valid_widget_state] at h
  · rintro ⟨kvs, rfl, h⟩
    exact h

/-- C4: the process exit code is 0 exactly when `fix_notebook` reported
success, and it reports success exactly when the file was read and parsed,
the in-memory repair raised no exception, and either no change was needed or
both the backup copy and the write succeeded; every failure (not found,
parse error, read error, backup failure, write failure) exits 1. -/
theorem c4_exit_code (ser : Json → String) (orig : String) (env : Env) :
    (pyExitCode (fix_notebook ser orig env) = 0 ↔
      (fix_notebook ser orig env).ret = some true) ∧
    ((fix_notebook ser orig env).ret = some true ↔
      ∃ d r, env.read = .ok d ∧ fixWidgets d = .ok r ∧
        (r.2.1 = false ∨ (env.backupOk = true ∧ env.writeOk = true))) := by
  constructor
  · cases hr : (fix_notebook ser orig env).ret with
    | none => simp [pyExitCode, hr]
    | some b => cases b <;> simp [pyExitCode, hr]
  · constructor
    · intro h
      cases henv : env.read with
      | ok d =>
        cases hfw : fixWidgets d with
        | error e => simp [fix_notebook, henv, hfw] at h
        | ok r =>
          obtain ⟨d', ch, log⟩ := r
          refine ⟨d, (d', ch, log), henv ▸ rfl, hfw, ?_⟩
          cases ch with
          | false => exact Or.inl rfl
          | true =>
            right
            by_cases hb : env.backupOk
            · by_cases hw : env.writeOk
              · exact ⟨hb, hw⟩
              · by_cases hrs : env.restoreOk <;>
                  simp [fix_notebook, henv, hfw, hb, hw, hrs] at h
            · simp [fix_notebook, henv, hfw, hb] at h
      | notFound => simp [fix_notebook, henv] at h
      | parseError => simp [fix_notebook, henv] at h
      | readError => simp [fix_notebook, henv] at h
    · rintro ⟨d, r, henv, hfw, hcond⟩
      obtain ⟨d', ch, log⟩ := r
      rcases hcond with hch | ⟨hb, hw⟩
      · simp only at hch
        subst hch
        simp [fix_notebook, henv, hfw]
      · cases ch with
        | false => simp [fix_notebook, henv, hfw]
        | true => simp [fix_notebook, henv, hfw, hb, hw]

/-- C5 as stated is false: an ill-shaped parsed document crashes the repair.
The file content `5` parses to a number, and `'metadata' in 5` raises an
uncaught `TypeError` inside `fix_notebook`. -/
theorem c5_counterexample :
    (fix_notebook (fun _ => "") "5" ⟨.ok (.num 5), true, true, true, ""⟩).ret = none := rfl

/-- C5 (amended): every load-phase failure (file not found, parse error, read
I/O error) is caught and reported with a descriptive message and outcome
failure, and on well-formed documents no error escapes `fix_notebook`; on
ill-shaped parsed documents (non-mapping top level, non-mapping metadata,
non-sequence cells) a `TypeError` can escape uncaught. -/
theorem c5_amended_error_handling (ser : Json → String) (orig : String) (env : Env) :
    (env.read = .notFound →
      (fix_notebook ser orig env).ret = some false ∧
      (fix_notebook ser orig env).log = [Msg.errNotFound]) ∧
    (env.read = .parseError →
      (fix_notebook ser orig env).ret = some false ∧
      (fix_notebook ser orig env).log = [Msg.errParse]) ∧
    (env.read = .readError →
      (fix_notebook ser orig env).ret = some false ∧
      (fix_notebook ser orig env).log = [Msg.errRead]) ∧
    (∀ d, env.read = .ok d → wfDoc d = true → (fix_notebook ser orig env).ret ≠ none) := by
  refine ⟨?_, ?_, ?_, ?_⟩
  · intro h
    simp [fix_notebook, h]
  · intro h
    simp [fix_notebook, h]
  · intro h
    simp [fix_notebook, h]
  · intro d h hwf
    rcases hrd : repairDoc d with ⟨d', ch, log⟩
    have hfw := fixWidgets_wf d hwf
    rw [hrd] at hfw
    cases ch with
    | false => simp [fix_notebook, h, hfw]
    | true =>
      by_cases hb : env.backupOk
      · by_cases hw : env.writeOk
        · simp [fix_notebook, h, hfw, hb, hw]
        · by_cases hrs : env.restoreOk <;> simp [fix_notebook, h, hfw, hb, hw, hrs]
      · simp [fix_notebook, h, hfw, hb]

/-- Witness for the amended C5 at concrete inputs. -/
theorem c5_amended_witness :
    (fix_notebook (fun _ => "") "x" ⟨.notFound, true, true, true, ""⟩).ret = some false ∧
    (fix_notebook (fun _ => "") "x" ⟨.ok (.obj []), true, true, true, ""⟩).ret ≠ none :=
  ⟨((c5_amended_error_handling (fun _ => "") "x" ⟨.notFound, true, true, true, ""⟩).1 rfl).1,
   (c5_amended_error_handling (fun _ => "") "x"
     ⟨.ok (.obj []), true, true, true, ""⟩).2.2.2 (.obj []) rfl rfl⟩

/-- C10: the in-memory repair is deterministic and ambient-free: any two
invocations whose loads parse to equal documents produce the same mutated
document and changes-made flag, independent of the file bytes, the
serializer, and the fate of backup, write and restore. -/
theorem c10_deterministic (ser1 ser2 : Json → String) (orig1 orig2 : String)
    (env1 env2 : Env) (d : Json) (h1 : env1.read = .ok d) (h2 : env2.read = .ok d) :
    (fix_notebook ser1 orig1 env1).mutated = (fix_notebook ser2 orig2 env2).mutated ∧
    (fix_notebook ser1 orig1 env1).mutated =
      (match fixWidgets d with
       | .ok (d', ch, _) => some (d', ch)
       | .error _ => none) := by
  have key : ∀ (ser : Json → String) (orig : String) (env : Env), env.read = .ok d →
      (fix_notebook ser orig env).mutated =
        (match fixWidgets d with
         | .ok (d', ch, _) => some (d', ch)
         | .error _ => none) := by
    intro ser orig env h
    cases hfw : fixWidgets d with
    | error e => simp [fix_notebook, h, hfw]
    | ok r =>
      obtain ⟨d', ch, log⟩ := r
      cases ch with
      | false => simp [fix_notebook, h, hfw]
      | true =>
        by_cases hb : env.backupOk
        · by_cases hw : env.writeOk
          · simp [fix_notebook, h, hfw, hb, hw]
          · by_cases hrs : env.restoreOk <;> simp [fix_notebook, h, hfw, hb, hw, hrs]
        · simp [fix_notebook, h, hfw, hb]
  exact ⟨(key ser1 orig1 env1 h1).trans (key ser2 orig2 env2 h2).symm,
    key ser1 orig1 env1 h1⟩

/-- Witness for C10: same parsed document, every other ambient input different. -/
theorem c10_witness :
    (fix_notebook (fun _ => "A") "o1" ⟨.ok (.obj []), true, true, true, ""⟩).mutated =
      (fix_notebook (fun _ => "B") "o2" ⟨.ok (.obj []), false, false, false, "junk"⟩).mutated :=
  (c10_deterministic (fun _ => "A") (fun _ => "B") "o1" "o2"
    ⟨.ok (.obj []), true, true, true, ""⟩ ⟨.ok (.obj []), false, false, false, "junk"⟩
    (.obj []) rfl rfl).1

/-- The `metadata` entry is untouched when the cells entry is replaced. -/
theorem metaWidgets_objSet_cells (kvs : List (String × Json)) (X : Json) :
    metaWidgets (.obj (objSet kvs "cells" X)) = metaWidgets (.obj kvs) := by
  simp only [metaWidgets, topGet, lookupKV_objSet_ne kvs "cells" "metadata" X (by decide)]

/-- A well-formed document without widgets entries is left exactly as it is. -/
theorem repairDoc_noop (d : Json) (hwf : wfDoc d = true) (hnw : noWidgets d = true) :
    repairDoc d = (d, false, []) := by
  cases d with
  | obj kvs =>
    simp only [noWidgets, Bool.and_eq_true] at hnw
    have hmw : metaWidgets (Json.obj kvs) = none := by
      have := hnw.1
      simpa [Option.isNone_iff_eq_none] using this
    have hco : cleanOwner kvs = (kvs, false) := cleanOwner_of_noWidgets kvs hmw
    simp only [wfDoc, Bool.and_eq_true] at hwf
    obtain ⟨⟨hnd, hmeta⟩, hcells⟩ := hwf
    cases hc : lookupKV kvs "cells" with
    | none => simp [repairDoc, hco, hc]
    | some cv =>
      rw [hc] at hcells
      cases cv with
      | arr cs =>
        have hcells2 : ∀ c ∈ cs, metaWidgets c = none := by
          have := hnw.2
          simp only [cellsOf, topGet, hc] at this
          simpa [List.all_eq_true, Option.isNone_iff_eq_none] using this
        have hclean : cleanCells 0 cs = (cs, false, []) :=
          cleanCells_noop cs 0 fun c hcmem => cleanCell_of_noWidgets c (hcells2 c hcmem)
        have hid : objSet kvs "cells" (.arr cs) = kvs := objSet_id _ _ _ hc
        simp [repairDoc, hco, hc, hclean, hid]
      | null => simp at hcells
      | bool b => simp at hcells
      | num n => simp at hcells
      | str s => simp at hcells
      | obj m => simp at hcells
  | null => simp [wfDoc] at hwf
  | bool b => simp [wfDoc] at hwf
  | num n => simp [wfDoc] at hwf
  | str s => simp [wfDoc] at hwf
  | arr xs => simp [wfDoc] at hwf

/-- C6: on a well-formed document with no `metadata.widgets` entry anywhere,
repair is a no-op: the transformation raises nothing and changes nothing, the
outcome is success, no backup is created, no write is performed, and the file
content is unchanged. -/
theorem c6_noop (ser : Json → String) (orig : String) (env : Env) (d : Json)
    (hwf : wfDoc d = true) (hnw : noWidgets d = true) (henv : env.read = .ok d) :
    fixWidgets d = .ok (d, false, []) ∧
    (fix_notebook ser orig env).ret = some true ∧
    (fix_notebook ser orig env).backupCreated = false ∧
    (fix_notebook ser orig env).wrote = false ∧
    (fix_notebook ser orig env).finalContent = orig := by
  have hfix : fixWidgets d = .ok (d, false, []) := by
    rw [fixWidgets_wf d hwf, repairDoc_noop d hwf hnw]
  exact ⟨hfix, by simp [fix_notebook, henv, hfix], by simp [fix_notebook, henv, hfix],
    by simp [fix_notebook, henv, hfix], by simp [fix_notebook, henv, hfix]⟩

/-- Witness for C6 at a concrete document with metadata and a cell but no
widgets entries. -/
theorem c6_witness :
    fixWidgets (.obj [("metadata", .obj [("x", .num 1)]), ("cells", .arr [.obj []])])
        = .ok (.obj [("metadata", .obj [("x", .num 1)]), ("cells", .arr [.obj []])],
          false, []) ∧
    (fix_notebook (fun _ => "S") "OG"
      ⟨.ok (.obj [("metadata", .obj [("x", .num 1)]), ("cells", .arr [.obj []])]),
        true, true, true, ""⟩).finalContent = "OG" :=
  let h := c6_noop (fun _ => "S") "OG"
    ⟨.ok (.obj [("metadata", .obj [("x", .num 1)]), ("cells", .arr [.obj []])]),
      true, true, true, ""⟩
    (.obj [("metadata", .obj [("x", .num 1)]), ("cells", .arr [.obj []])]) rfl rfl rfl
  ⟨h.1, h.2.2.2.2⟩

/-- After repairing a well-formed document whose notebook-level widgets entry
is invalid, the change flag is set and no notebook-level widgets entry
remains. -/
theorem repairDoc_invalid_top (d w : Json) (hwf : wfDoc d = true)
    (hw : metaWidgets d = some w) (hv : has_valid_widget_state w = false) :
    (repairDoc d).2.1 = true ∧ metaWidgets (repairDoc d).1 = none := by
  cases d with
  | obj kvs =>
    simp only [wfDoc, Bool.and_eq_true] at hwf
    obtain ⟨⟨hnd, hmeta⟩, hcells⟩ := hwf
    cases hm : lookupKV kvs "metadata" with
    | none => simp [metaWidgets, topGet, hm] at hw
    | some md =>
      cases md with
      | obj m =>
        have hw2 : lookupKV m "widgets" = some w := by
          simpa [metaWidgets, topGet, hm] using hw
        have hco := cleanOwner_invalid kvs m w hm hw2 hv
        have hndm : nodupKeys m = true := by
          rw [hm] at hmeta
          simpa [wfMeta] using hmeta
        have hafter : metaWidgets (.obj (cleanOwner kvs).1) = none := by
          rw [hco]
          exact metaWidgets_after_removal kvs m hm hndm
        have hafter2 : metaWidgets (.obj (objSet kvs "metadata"
            (Json.obj (eraseKey m "widgets")))) = none := by
          have h3 := hafter
          rw [hco] at h3
          exact h3
        cases hc : lookupKV kvs "cells" with
        | none =>
          have h2 : lookupKV (objSet kvs "metadata" (Json.obj (eraseKey m "widgets")))
              "cells" = none := by
            have h3 : lookupKV (cleanOwner kvs).1 "cells" = none := by
              rw [cleanOwner_lookup_ne kvs "cells" (by decide), hc]
            rw [hco] at h3
            exact h3
          constructor
          · simp [repairDoc, hco, h2]
          · simpa [repairDoc, hco, h2] using hafter2
        | some cv =>
          rw [hc] at hcells
          cases cv with
          | arr cs =>
            have h2 : lookupKV (objSet kvs "metadata" (Json.obj (eraseKey m "widgets")))
                "cells" = some (.arr cs) := by
              have h3 : lookupKV (cleanOwner kvs).1 "cells" = some (.arr cs) := by
                rw [cleanOwner_lookup_ne kvs "cells" (by decide), hc]
              rw [hco] at h3
              exact h3
            constructor
            · simp [repairDoc, hco, h2]
            · simpa [repairDoc, hco, h2, metaWidgets_objSet_cells] using hafter2
          | null => simp at hcells
          | bool b => simp at hcells
          | num n => simp at hcells
          | str s => simp at hcells
          | obj m2 => simp at hcells
      | null => rw [hm] at hmeta; simp [wfMeta] at hmeta
      | bool b => rw [hm] at hmeta; simp [wfMeta] at hmeta
      | num n => rw [hm] at hmeta; simp [wfMeta] at hmeta
      | str s => rw [hm] at hmeta; simp [wfMeta] at hmeta
      | arr xs => rw [hm] at hmeta; simp [wfMeta] at hmeta
  | null => simp [wfDoc] at hwf
  | bool b => simp [wfDoc] at hwf
  | num n => simp [wfDoc] at hwf
  | str s => simp [wfDoc] at hwf
  | arr xs => simp [wfDoc] at hwf

/-- C2: for every well-formed document whose notebook-level `metadata.widgets`
entry is present but invalid (a mapping missing `state`, a non-mapping, or
null), in an invocation where the backup copy and the write succeed, repair
removes the entry, reports success, and leaves a backup whose bytes are the
pre-run file content. -/
theorem c2_invalid_top_removed (ser : Json → String) (orig : String) (env : Env)
    (d w : Json) (hwf : wfDoc d = true)
    (hw : metaWidgets d = some w) (hv : has_valid_widget_state w = false)
    (henv : env.read = .ok d) (hb : env.backupOk = true) (hwr : env.writeOk = true) :
    ∃ d' log, fixWidgets d = .ok (d', true, log) ∧
      metaWidgets d' = none ∧
      (fix_notebook ser orig env).ret = some true ∧
      (fix_notebook ser orig env).backupCreated = true ∧
      (fix_notebook ser orig env).backupContent = some orig := by
  rcases hrd : repairDoc d with ⟨d', ch, log⟩
  have hfw := fixWidgets_wf d hwf
  rw [hrd] at hfw
  have hinv := repairDoc_invalid_top d w hwf hw hv
  rw [hrd] at hinv
  have hch : ch = true := hinv.1
  have hmw : metaWidgets d' = none := hinv.2
  subst hch
  exact ⟨d', log, hfw, hmw, by simp [fix_notebook, henv, hfw, hb, hwr],
    by simp [fix_notebook, henv, hfw, hb, hwr], by simp [fix_notebook, henv, hfw, hb, hwr]⟩

/-- Witness for C2: `{"metadata": {"widgets": null}}` with succeeding backup
and write. -/
theorem c2_witness :
    ∃ d' log,
      fixWidgets (.obj [("metadata", .obj [("widgets", .null)])]) = .ok (d', true, log) ∧
      metaWidgets d' = none ∧
      (fix_notebook (fun _ => "S") "OG"
        ⟨.ok (.obj [("metadata", .obj [("widgets", .null)])]), true, true, true, ""⟩).ret
          = some true ∧
      (fix_notebook (fun _ => "S") "OG"
        ⟨.ok (.obj [("metadata", .obj [("widgets", .null)])]), true, true, true,
          ""⟩).backupCreated = true ∧
      (fix_notebook (fun _ => "S") "OG"
        ⟨.ok (.obj [("metadata", .obj [("widgets", .null)])]), true, true, true,
          ""⟩).backupContent = some "OG" :=
  c2_invalid_top_removed (fun _ => "S") "OG"
    ⟨.ok (.obj [("metadata", .obj [("widgets", .null)])]), true, true, true, ""⟩
    (.obj [("metadata", .obj [("widgets", .null)])]) .null rfl rfl rfl rfl rfl rfl

/-- C7: when a change occurred, the backup precedes the write: a failed
backup aborts with failure, nothing written and the file untouched; a failed
write leaves the backup of the original bytes, attempts a restore, reports
whether the restore succeeded, and fails; the file holds the original bytes
again exactly when the restore succeeded. -/
theorem c7_backup_write_failures (ser : Json → String) (orig : String) (env : Env)
    (d d' : Json) (log : List Msg) (henv : env.read = .ok d)
    (hfw : fixWidgets d = .ok (d', true, log)) :
    (env.backupOk = false →
      (fix_notebook ser orig env).ret = some false ∧
      (fix_notebook ser orig env).backupCreated = false ∧
      (fix_notebook ser orig env).finalContent = orig ∧
      (fix_notebook ser orig env).wrote = false) ∧
    (env.backupOk = true → env.writeOk = false →
      (fix_notebook ser orig env).ret = some false ∧
      (fix_notebook ser orig env).backupCreated = true ∧
      (fix_notebook ser orig env).backupContent = some orig ∧
      (fix_notebook ser orig env).wrote = false ∧
      (fix_notebook ser orig env).finalContent =
        (if env.restoreOk then orig else env.leftover) ∧
      (env.restoreOk = true → Msg.restored ∈ (fix_notebook ser orig env).log) ∧
      (env.restoreOk = false → Msg.errRestore ∈ (fix_notebook ser orig env).log)) := by
  constructor
  · intro hb
    simp [fix_notebook, henv, hfw, hb]
  · intro hb hwr
    by_cases hrs : env.restoreOk <;> simp [fix_notebook, henv, hfw, hb, hwr, hrs]

/-- Witness for C7: a failing backup aborts leaving the original bytes. -/
theorem c7_witness :
    (fix_notebook (fun _ => "S") "OG"
      ⟨.ok (.obj [("metadata", .obj [("widgets", .null)])]), false, true, true, ""⟩).ret
        = some false ∧
    (fix_notebook (fun _ => "S") "OG"
      ⟨.ok (.obj [("metadata", .obj [("widgets", .null)])]), false, true, true,
        ""⟩).finalContent = "OG" :=
  let h := c7_backup_write_failures (fun _ => "S") "OG"
    ⟨.ok (.obj [("metadata", .obj [("widgets", .null)])]), false, true, true, ""⟩
    (.obj [("metadata", .obj [("widgets", .null)])]) (.obj [("metadata", .obj [])])
    [.removedNotebookLevel] rfl rfl
  ⟨(h.1 rfl).1, (h.1 rfl).2.2.1⟩

/-- The cell pass never touches the notebook-level metadata. -/
theorem repairDoc_metaWidgets (kvs : List (String × Json))
    (hwf : wfDoc (.obj kvs) = true) :
    metaWidgets (repairDoc (.obj kvs)).1 = metaWidgets (.obj (cleanOwner kvs).1) := by
  simp only [wfDoc, Bool.and_eq_true] at hwf
  obtain ⟨⟨hnd, hmeta⟩, hcells⟩ := hwf
  have hlook : lookupKV (cleanOwner kvs).1 "cells" = lookupKV kvs "cells" :=
    cleanOwner_lookup_ne kvs "cells" (by decide)
  cases hc : lookupKV kvs "cells" with
  | none =>
    have h2 : lookupKV (cleanOwner kvs).1 "cells" = none := by rw [hlook, hc]
    simp [repairDoc, h2]
  | some cv =>
    rw [hc] at hcells
    cases cv with
    | arr cs =>
      have h2 : lookupKV (cleanOwner kvs).1 "cells" = some (.arr cs) := by rw [hlook, hc]
      simp [repairDoc, h2, metaWidgets_objSet_cells]
    | null => simp at hcells
    | bool b => simp at hcells
    | num n => simp at hcells
    | str s => simp at hcells
    | obj m => simp at hcells

/-- C9: a valid notebook-level widgets block is preserved unchanged, and
repair is idempotent: the transformation applied to the result of a first
successful repair changes nothing, so a second run is a no-op success with no
backup and no write. -/
theorem c9_valid_preserved_idempotent (ser : Json → String) (orig2 : String)
    (env2 : Env) (d : Json) (hwf : wfDoc d = true) :
    (∀ m w, topGet d "metadata" = some (.obj m) → lookupKV m "widgets" = some w →
      has_valid_widget_state w = true →
      ∃ d' ch log, fixWidgets d = .ok (d', ch, log) ∧ metaWidgets d' = some w) ∧
    (∀ d' ch log, fixWidgets d = .ok (d', ch, log) →
      fixWidgets d' = .ok (d', false, []) ∧
      (env2.read = .ok d' →
        (fix_notebook ser orig2 env2).ret = some true ∧
        (fix_notebook ser orig2 env2).backupCreated = false ∧
        (fix_notebook ser orig2 env2).wrote = false ∧
        (fix_notebook ser orig2 env2).finalContent = orig2)) := by
  constructor
  · intro m w hm hw hv
    refine ⟨(repairDoc d).1, (repairDoc d).2.1, (repairDoc d).2.2,
      fixWidgets_wf d hwf, ?_⟩
    cases d with
    | obj kvs =>
      have hm2 : lookupKV kvs "metadata" = some (.obj m) := hm
      rw [repairDoc_metaWidgets kvs hwf,
        cleanOwner_of_metaClean kvs (metaClean_of_valid kvs m w hm2 hw hv)]
      simp [metaWidgets, topGet, hm2, hw]
    | null => simp [wfDoc] at hwf
    | bool b => simp [wfDoc] at hwf
    | num n => simp [wfDoc] at hwf
    | str s => simp [wfDoc] at hwf
    | arr xs => simp [wfDoc] at hwf
  · intro d' ch log hfw
    have h1 := fixWidgets_wf d hwf
    rw [hfw] at h1
    injection h1 with h2
    have hd' : (repairDoc d).1 = d' := by rw [← h2]
    have wfd' : wfDoc d' = true := hd' ▸ wfDoc_repairDoc d hwf
    have idem : repairDoc d' = (d', false, []) := by
      have h3 := repairDoc_idem d hwf
      rw [hd'] at h3
      exact h3
    have hfix2 : fixWidgets d' = .ok (d', false, []) := by
      rw [fixWidgets_wf d' wfd', idem]
    refine ⟨hfix2, fun henv2 => ?_⟩
    exact ⟨by simp [fix_notebook, henv2, hfix2], by simp [fix_notebook, henv2, hfix2],
      by simp [fix_notebook, henv2, hfix2], by simp [fix_notebook, henv2, hfix2]⟩

/-- Witness for C9 at `{"metadata": {"widgets": {"state": {}}}}`. -/
theorem c9_witness :
    (∃ d' ch log,
      fixWidgets (.obj [("metadata", .obj [("widgets", .obj [("state", .obj [])])])])
          = .ok (d', ch, log) ∧
        metaWidgets d' = some (.obj [("state", .obj [])])) ∧
    fixWidgets (.obj [("metadata", .obj [("widgets", .obj [("state", .obj [])])])])
        = .ok (.obj [("metadata", .obj [("widgets", .obj [("state", .obj [])])])],
          false, []) ∧
    (fix_notebook (fun _ => "S") "OG"
      ⟨.ok (.obj [("metadata", .obj [("widgets", .obj [("state", .obj [])])])]),
        true, true, true, ""⟩).ret = some true :=
  let H := c9_valid_preserved_idempotent (fun _ => "S") "OG"
    ⟨.ok (.obj [("metadata", .obj [("widgets", .obj [("state", .obj [])])])]),
      true, true, true, ""⟩
    (.obj [("metadata", .obj [("widgets", .obj [("state", .obj [])])])]) rfl
  ⟨H.1 [("widgets", .obj [("state", .obj [])])] (.obj [("state", .obj [])]) rfl rfl rfl,
   (H.2 (.obj [("metadata", .obj [("widgets", .obj [("state", .obj [])])])]) false [] rfl).1,
   ((H.2 (.obj [("metadata", .obj [("widgets", .obj [("state", .obj [])])])]) false []
     rfl).2 rfl).1⟩

/-- C3: after a successful repair of a well-formed document, any remaining
`metadata.widgets` entry — at notebook level or in any cell — is a mapping
containing `state`, and it is exactly the entry the original document held
there: the tool only removes entries and never fabricates or modifies a
widgets value. -/
theorem c3_invariant (d d' : Json) (ch : Bool) (log : List Msg)
    (hwf : wfDoc d = true) (hfw : fixWidgets d = .ok (d', ch, log)) :
    (∀ w, metaWidgets d' = some w →
      has_valid_widget_state w = true ∧ metaWidgets d = some w) ∧
    (∀ cs', cellsOf d' = some cs' →
      ∃ cs, cellsOf d = some cs ∧ cs'.length = cs.length ∧
        ∀ i c' w, cs'.get? i = some c' → metaWidgets c' = some w →
          has_valid_widget_state w = true ∧
          ∃ c, cs.get? i = some c ∧ metaWidgets c = some w) := by
  have h1 := fixWidgets_wf d hwf
  rw [hfw] at h1
  injection h1 with h2
  have hd' : (repairDoc d).1 = d' := by rw [← h2]
  cases d with
  | obj kvs =>
    have hwf2 := hwf
    simp only [wfDoc, Bool.and_eq_true] at hwf2
    obtain ⟨⟨hnd, hmeta⟩, hcells⟩ := hwf2
    have hlook : lookupKV (cleanOwner kvs).1 "cells" = lookupKV kvs "cells" :=
      cleanOwner_lookup_ne kvs "cells" (by decide)
    constructor
    · intro w hw
      rw [← hd', repairDoc_metaWidgets kvs hwf] at hw
      exact metaWidgets_cleanOwner kvs hmeta w hw
    · intro cs' hcs'
      rw [← hd'] at hcs'
      cases hc : lookupKV kvs "cells" with
      | none =>
        have h2c : lookupKV (cleanOwner kvs).1 "cells" = none := by rw [hlook, hc]
        rw [show (repairDoc (Json.obj kvs)).1 = .obj (cleanOwner kvs).1 by
          simp [repairDoc, h2c]] at hcs'
        simp [cellsOf, topGet, h2c] at hcs'
      | some cv =>
        rw [hc] at hcells
        cases cv with
        | arr cs =>
          have hwfcells : ∀ c ∈ cs, wfCell c = true := by
            simpa [List.all_eq_true] using hcells
          have h2c : lookupKV (cleanOwner kvs).1 "cells" = some (.arr cs) := by
            rw [hlook, hc]
          have h4 : lookupKV (objSet (cleanOwner kvs).1 "cells"
              (.arr (cleanCells 0 cs).1)) "cells" = some (.arr (cleanCells 0 cs).1) :=
            lookupKV_objSet_self _ "cells" _ (by rw [containsKey_eq_isSome, h2c]; rfl)
          rw [show (repairDoc (Json.obj kvs)).1 = .obj (objSet (cleanOwner kvs).1 "cells"
              (.arr (cleanCells 0 cs).1)) by simp [repairDoc, h2c]] at hcs'
          simp only [cellsOf, topGet, h4] at hcs'
          injection hcs' with h5
          subst h5
          refine ⟨cs, by simp [cellsOf, topGet, hc], by simp [cleanCells_fst], ?_⟩
          intro i c' w hget hw
          rw [cleanCells_fst, List.get?_map] at hget
          cases hcget : cs.get? i with
          | none => rw [hcget] at hget; cases hget
          | some c =>
            rw [hcget] at hget
            injection hget with h6
            have h7 : (cleanCell c).1 = c' := h6
            have hcmem : c ∈ cs := List.get?_mem hcget
            have := metaWidgets_cleanCell c (hwfcells c hcmem) w (by rw [h7]; exact hw)
            exact ⟨this.1, c, rfl, this.2⟩
        | null => simp at hcells
        | bool b => simp at hcells
        | num n => simp at hcells
        | str s => simp at hcells
        | obj m => simp at hcells
  | null => simp [wfDoc] at hwf
  | bool b => simp [wfDoc] at hwf
  | num n => simp [wfDoc] at hwf
  | str s => simp [wfDoc] at hwf
  | arr xs => simp [wfDoc] at hwf

/-- Witness for C3 at a document with one invalid cell-level widgets entry
and one valid one. -/
theorem c3_witness :
    (∀ w, metaWidgets (.obj [("cells", .arr [.obj [("metadata", .obj [("widgets",
        .obj [("state", .null)])])], .obj [("metadata", .obj [])]])]) = some w →
      has_valid_widget_state w = true ∧
      metaWidgets (.obj [("cells", .arr [.obj [("metadata", .obj [("widgets",
        .obj [("state", .null)])])], .obj [("metadata", .obj [("widgets", .num 3)])]])])
          = some w) ∧
    (∀ cs', cellsOf (.obj [("cells", .arr [.obj [("metadata", .obj [("widgets",
        .obj [("state", .null)])])], .obj [("metadata", .obj [])]])]) = some cs' →
      ∃ cs, cellsOf (.obj [("cells", .arr [.obj [("metadata", .obj [("widgets",
          .obj [("state", .null)])])], .obj [("metadata", .obj [("widgets",
          .num 3)])]])]) = some cs ∧ cs'.length = cs.length ∧
        ∀ i c' w, cs'.get? i = some c' → metaWidgets c' = some w →
          has_valid_widget_state w = true ∧
          ∃ c, cs.get? i = some c ∧ metaWidgets c = some w) :=
  c3_invariant
    (.obj [("cells", .arr [.obj [("metadata", .obj [("widgets", .obj [("state", .null)])])],
      .obj [("metadata", .obj [("widgets", .num 3)])]])])
    (.obj [("cells", .arr [.obj [("metadata", .obj [("widgets", .obj [("state", .null)])])],
      .obj [("metadata", .obj [])]])])
    true [.removedCell 1] rfl rfl

/-- Frame of one owner pass: keys and their order are untouched, every entry
other than `metadata` is untouched, and inside `metadata` every entry other
than `widgets` is untouched (the metadata list is either unchanged or exactly
filtered of its `widgets` entry). -/
theorem cleanOwner_frame (kvs : List (String × Json))
    (h : wfMeta (lookupKV kvs "metadata") = true) :
    (cleanOwner kvs).1.map Prod.fst = kvs.map Prod.fst ∧
    (∀ k, k ≠ "metadata" → lookupKV (cleanOwner kvs).1 k = lookupKV kvs k) ∧
    (∀ m, lookupKV kvs "metadata" = some (.obj m) →
      ∃ m', lookupKV (cleanOwner kvs).1 "metadata" = some (.obj m') ∧
        (m' = m ∨ m' = m.filter fun p => !(p.1 = "widgets" : Bool)) ∧
        (∀ k, k ≠ "widgets" → lookupKV m' k = lookupKV m k)) := by
  cases hm : lookupKV kvs "metadata" with
  | none =>
    rw [cleanOwner_of_noWidgets kvs (by simp [metaWidgets, topGet, hm])]
    refine ⟨rfl, fun k _ => rfl, fun m hm2 => ?_⟩
    exact Option.noConfusion hm2
  | some md =>
    cases md with
    | obj m0 =>
      have hndm : nodupKeys m0 = true := by
        rw [hm] at h
        simpa [wfMeta] using h
      cases hw : lookupKV m0 "widgets" with
      | none =>
        rw [cleanOwner_of_noWidgets kvs (by simp [metaWidgets, topGet, hm, hw])]
        refine ⟨rfl, fun k _ => rfl, fun m hm2 => ?_⟩
        injection hm2 with h3
        injection h3 with h4
        subst h4
        exact ⟨m0, hm, Or.inl rfl, fun k _ => rfl⟩
      | some w0 =>
        cases hv : has_valid_widget_state w0 with
        | true =>
          rw [cleanOwner_of_metaClean kvs (metaClean_of_valid kvs m0 w0 hm hw hv)]
          refine ⟨rfl, fun k _ => rfl, fun m hm2 => ?_⟩
          injection hm2 with h3
          injection h3 with h4
          subst h4
          exact ⟨m0, hm, Or.inl rfl, fun k _ => rfl⟩
        | false =>
          rw [cleanOwner_invalid kvs m0 w0 hm hw hv]
          refine ⟨objSet_map_fst kvs "metadata" _,
            fun k hk => lookupKV_objSet_ne kvs "metadata" k _ hk, fun m hm2 => ?_⟩
          injection hm2 with h3
          injection h3 with h4
          subst h4
          refine ⟨eraseKey m0 "widgets", ?_,
            Or.inr (eraseKey_eq_filter m0 "widgets" hndm),
            fun k hk => lookupKV_eraseKey_ne m0 "widgets" k hk⟩
          exact lookupKV_objSet_self kvs "metadata" _
            (by rw [containsKey_eq_isSome, hm]; rfl)
    | null => rw [hm] at h; simp [wfMeta] at h
    | bool b => rw [hm] at h; simp [wfMeta] at h
    | num n => rw [hm] at h; simp [wfMeta] at h
    | str s => rw [hm] at h; simp [wfMeta] at h
    | arr xs => rw [hm] at h; simp [wfMeta] at h

/-- Frame of the cell pass on one cell: the cell is unchanged, or exactly its
`metadata.widgets` entry is filtered out. -/
theorem cleanCell_frame (c : Json) (h : wfCell c = true) :
    (cleanCell c).1 = c ∨ ∃ ckvs cm, c = .obj ckvs ∧
      lookupKV ckvs "metadata" = some (.obj cm) ∧
      (cleanCell c).1 = .obj (objSet ckvs "metadata"
        (.obj (cm.filter fun p => !(p.1 = "widgets" : Bool)))) := by
  cases c with
  | obj ckvs =>
    simp only [wfCell, Bool.and_eq_true] at h
    cases hm : lookupKV ckvs "metadata" with
    | none =>
      left
      simp [cleanCell, cleanOwner_of_noWidgets ckvs (by simp [metaWidgets, topGet, hm])]
    | some md =>
      cases md with
      | obj m0 =>
        have hndm : nodupKeys m0 = true := by
          have h2 := h.2
          rw [hm] at h2
          simpa [wfMeta] using h2
        cases hw : lookupKV m0 "widgets" with
        | none =>
          left
          simp [cleanCell,
            cleanOwner_of_noWidgets ckvs (by simp [metaWidgets, topGet, hm, hw])]
        | some w0 =>
          cases hv : has_valid_widget_state w0 with
          | true =>
            left
            simp [cleanCell,
              cleanOwner_of_metaClean ckvs (metaClean_of_valid ckvs m0 w0 hm hw hv)]
          | false =>
            right
            refine ⟨ckvs, m0, rfl, hm, ?_⟩
            simp [cleanCell, cleanOwner_invalid ckvs m0 w0 hm hw hv,
              eraseKey_eq_filter m0 "widgets" hndm]
      | null => have h2 := h.2; rw [hm] at h2; simp [wfMeta] at h2
      | bool b => have h2 := h.2; rw [hm] at h2; simp [wfMeta] at h2
      | num n => have h2 := h.2; rw [hm] at h2; simp [wfMeta] at h2
      | str s => have h2 := h.2; rw [hm] at h2; simp [wfMeta] at h2
      | arr xs => have h2 := h.2; rw [hm] at h2; simp [wfMeta] at h2
  | null => simp [wfCell] at h
  | bool b => simp [wfCell] at h
  | num n => simp [wfCell] at h
  | str s => simp [wfCell] at h
  | arr xs => simp [wfCell] at h

/-- C8: repair inspects and alters only `metadata.widgets` entries.  On a
well-formed document: the top-level keys and their order are preserved; every
top-level entry other than `metadata` and `cells` is unchanged; inside the
notebook metadata, every entry other than `widgets` is unchanged and the key
list is at most filtered of `widgets`; the cell list keeps its length and
each cell is unchanged or exactly filtered of its `metadata.widgets` entry. -/
theorem c8_frame (d d' : Json) (ch : Bool) (log : List Msg)
    (hwf : wfDoc d = true) (hfw : fixWidgets d = .ok (d', ch, log)) :
    ∀ kvs, d = .obj kvs →
      ∃ kvs', d' = .obj kvs' ∧
        kvs'.map Prod.fst = kvs.map Prod.fst ∧
        (∀ k, k ≠ "metadata" → k ≠ "cells" → lookupKV kvs' k = lookupKV kvs k) ∧
        (∀ m, lookupKV kvs "metadata" = some (.obj m) →
          ∃ m', lookupKV kvs' "metadata" = some (.obj m') ∧
            (m' = m ∨ m' = m.filter fun p => !(p.1 = "widgets" : Bool)) ∧
            (∀ k, k ≠ "widgets" → lookupKV m' k = lookupKV m k)) ∧
        (∀ cs, lookupKV kvs "cells" = some (.arr cs) →
          ∃ cs', lookupKV kvs' "cells" = some (.arr cs') ∧ cs'.length = cs.length ∧
            ∀ i c c', cs.get? i = some c → cs'.get? i = some c' →
              (c' = c ∨ ∃ ckvs cm, c = .obj ckvs ∧
                lookupKV ckvs "metadata" = some (.obj cm) ∧
                c' = .obj (objSet ckvs "metadata"
                  (.obj (cm.filter fun p => !(p.1 = "widgets" : Bool)))))) := by
  intro kvs hdkv
  subst hdkv
  have h1 := fixWidgets_wf _ hwf
  rw [hfw] at h1
  injection h1 with h2
  have hd' : (repairDoc (Json.obj kvs)).1 = d' := by rw [← h2]
  have hwfd := hwf
  simp only [wfDoc, Bool.and_eq_true] at hwfd
  obtain ⟨⟨hnd, hmeta⟩, hcells⟩ := hwfd
  obtain ⟨hof1, hof2, hof3⟩ := cleanOwner_frame kvs hmeta
  cases hc : lookupKV kvs "cells" with
  | none =>
    have h2c : lookupKV (cleanOwner kvs).1 "cells" = none := by
      rw [hof2 "cells" (by decide), hc]
    have hd'2 : d' = .obj (cleanOwner kvs).1 := by
      rw [← hd']
      simp [repairDoc, h2c]
    refine ⟨(cleanOwner kvs).1, hd'2, hof1, fun k hk _ => hof2 k hk, hof3,
      fun cs hcs => ?_⟩
    exact Option.noConfusion hcs
  | some cv =>
    rw [hc] at hcells
    cases cv with
    | arr cs =>
      have hwfcells : ∀ c ∈ cs, wfCell c = true := by
        simpa [List.all_eq_true] using hcells
      have h2c : lookupKV (cleanOwner kvs).1 "cells" = some (.arr cs) := by
        rw [hof2 "cells" (by decide), hc]
      have hd'2 : d' = .obj (objSet (cleanOwner kvs).1 "cells"
          (.arr (cleanCells 0 cs).1)) := by
        rw [← hd']
        simp [repairDoc, h2c]
      refine ⟨_, hd'2, ?_, ?_, ?_, ?_⟩
      · rw [objSet_map_fst]
        exact hof1
      · intro k hkm hkc
        rw [lookupKV_objSet_ne _ "cells" k _ hkc]
        exact hof2 k hkm
      · intro m hm
        obtain ⟨m', hm', hrel, hvals⟩ := hof3 m hm
        exact ⟨m', by rw [lookupKV_objSet_ne _ "cells" "metadata" _ (by decide)]; exact hm',
          hrel, hvals⟩
      · intro cs0 hcs0
        injection hcs0 with h3
        injection h3 with h4
        subst h4
        refine ⟨(cleanCells 0 cs).1,
          lookupKV_objSet_self _ "cells" _ (by rw [containsKey_eq_isSome, h2c]; rfl),
          by simp [cleanCells_fst], ?_⟩
        intro i c c' hgc hgc'
        rw [cleanCells_fst, List.get?_map, hgc] at hgc'
        injection hgc' with h5
        have h6 : (cleanCell c).1 = c' := h5
        have hcmem : c ∈ cs := List.get?_mem hgc
        have hfr := cleanCell_frame c (hwfcells c hcmem)
        rw [h6] at hfr
        exact hfr
    | null => simp at hcells
    | bool b => simp at hcells
    | num n => simp at hcells
    | str s => simp at hcells
    | obj m => simp at hcells

/-- Witness for C8 at a document with an unknown top-level key, non-widget
metadata, an invalid widgets entry and one cell. -/
theorem c8_witness :
    ∃ kvs',
      (Json.obj [("nbformat", Json.num 4),
        ("metadata", Json.obj [("lang", Json.str "py")]),
        ("cells", Json.arr [Json.obj []])]) = Json.obj kvs' ∧
      kvs'.map Prod.fst = ([("nbformat", Json.num 4),
        ("metadata", Json.obj [("lang", Json.str "py"), ("widgets", Json.null)]),
        ("cells", Json.arr [Json.obj []])] : List (String × Json)).map Prod.fst ∧
      (∀ k, k ≠ "metadata" → k ≠ "cells" → lookupKV kvs' k =
        lookupKV [("nbformat", Json.num 4),
          ("metadata", Json.obj [("lang", Json.str "py"), ("widgets", Json.null)]),
          ("cells", Json.arr [Json.obj []])] k) ∧
      (∀ m, lookupKV [("nbformat", Json.num 4),
          ("metadata", Json.obj [("lang", Json.str "py"), ("widgets", Json.null)]),
          ("cells", Json.arr [Json.obj []])] "metadata" = some (.obj m) →
        ∃ m', lookupKV kvs' "metadata" = some (.obj m') ∧
          (m' = m ∨ m' = m.filter fun p => !(p.1 = "widgets" : Bool)) ∧
          (∀ k, k ≠ "widgets" → lookupKV m' k = lookupKV m k)) ∧
      (∀ cs, lookupKV [("nbformat", Json.num 4),
          ("metadata", Json.obj [("lang", Json.str "py"), ("widgets", Json.null)]),
          ("cells", Json.arr [Json.obj []])] "cells" = some (.arr cs) →
        ∃ cs', lookupKV kvs' "cells" = some (.arr cs') ∧ cs'.length = cs.length ∧
          ∀ i c c', cs.get? i = some c → cs'.get? i = some c' →
            (c' = c ∨ ∃ ckvs cm, c = .obj ckvs ∧
              lookupKV ckvs "metadata" = some (.obj cm) ∧
              c' = .obj (objSet ckvs "metadata"
                (.obj (cm.filter fun p => !(p.1 = "widgets" : Bool)))))) :=
  c8_frame
    (.obj [("nbformat", .num 4),
      ("metadata", .obj [("lang", .str "py"), ("widgets", .null)]),
      ("cells", .arr [.obj []])])
    (.obj [("nbformat", .num 4),
      ("metadata", .obj [("lang", .str "py")]),
      ("cells", .arr [.obj []])])
    true [.removedNotebookLevel] rfl rfl
    [("nbformat", .num 4),
      ("metadata", .obj [("lang", .str "py"), ("widgets", .null)]),
      ("cells", .arr [.obj []])] rfl

end FixNotebook
